import Mathlib

/-!
Shallow embedding of the StringTools string-manipulation library
(`src/src/strtools.hh`, helpers in `src/src/strutil.hh`,
`src/src/strutilhelper.hh` / `src/src/functions.cpp`).

A C string is modelled as a `List Char` (the bytes before the NUL
terminator).  Fallible operations return `Except String` — the
`std::runtime_error` thrown by `__StrUtilHelper::checkLogicErrors`
(functions.cpp lines 177-180) becomes `Except.error msg`.  Machine
indices (`uint64_t`) are modelled as `Nat`; the one place where
unsigned wrap-around is observable on realistic inputs
(`i + j - 1` in `delSubStr` when `i + j = 0`) is modelled explicitly.
-/

namespace strTools

/-- C `tolower` in the "C" locale, as applied bytewise by
`strUtil::toLower` via `__StrUtilHelper::toSomething`
(strutil.hh lines 77-80, functions.cpp lines 199-204):
ASCII `A`..`Z` map to `a`..`z`, every other byte is unchanged. -/
def asciiToLower (c : Char) : Char :=
  if 65 ≤ c.toNat ∧ c.toNat ≤ 90 then Char.ofNat (c.toNat + 32) else c

/-- Embedding of `strUtil::toLower` (strutil.hh lines 168-176): a fresh lowercase copy
of the input string.  (The C code's undersized `new char[sizeof(src)]`
allocation is a memory-safety slip; the copy semantics is as `strcpy`
intends, folding each byte with `tolower`.) -/
def toLower (s : List Char) : List Char := s.map asciiToLower

/-- Embedding of `__StrUtilHelper::checkLogicErrors` (functions.cpp lines 177-180):
throws (`std::runtime_error(msg)`) exactly when `rule` is TRUE. -/
def checkLogicErrors (rule : Bool) (msg : String) : Except String Unit :=
  if rule then Except.error msg else Except.ok ()

/-- Embedding of `strTools::concatStr` (strtools.hh lines 57-74): `strcpy` then
`strcat` into a fresh buffer of length `strlen(s1) + strlen(s2) + 1`,
i.e. list append.  Declared `noexcept`; no failure mode. -/
def concatStr (s1 s2 : List Char) : List Char := s1 ++ s2

/-- Error message of `strTools::subStr` (strtools.hh lines 100-104). -/
def subStrMsg : String :=
  "The indices 'i' and 'j' must be non-negative and the length must not exceed the length of the original string."

/-- Embedding of `strTools::subStr` (strtools.hh lines 96-114): guard
`i >= sLen || i + j > sLen` throws; otherwise `strncpy(r, s + i, j)`
copies the `j` bytes starting at offset `i` (the guard guarantees that
many bytes exist before the terminator). -/
def subStr (s : List Char) (i j : Nat) : Except String (List Char) := do
  _ ← checkLogicErrors (decide (i ≥ s.length ∨ i + j > s.length)) subStrMsg
  pure ((s.drop i).take j)

/-- Error message of `strTools::insertStr` (strtools.hh lines 139-142). -/
def insertMsg : String :=
  "The value of 'i' must be in the range of 1 to the length of s1 + 1"

/-- Embedding of `strTools::insertStr` (strtools.hh lines 137-150).  The guard passes
the condition `1 <= i || i <= strlen(s1) + 1` to `checkLogicErrors`,
which throws when its condition is TRUE; since for an unsigned `i`
either `1 <= i` or (`i = 0` and hence) `i <= strlen(s1) + 1` holds, the
guard condition is a tautology.  The splice below the guard mirrors
lines 144-149. -/
def insertStr (s1 s2 : List Char) (i : Nat) : Except String (List Char) := do
  _ ← checkLogicErrors (decide (1 ≤ i ∨ i ≤ s1.length + 1)) insertMsg
  let p1 ← subStr s1 0 (i - 1)
  let p2 := concatStr p1 s2
  let p3 ← subStr s1 (i - 1) (s1.length - (i - 1))
  pure (concatStr p2 p3)

/-- First error message of `strTools::delSubStr` (strtools.hh line 176). -/
def delMsg1 : String :=
  "Position of `i` must be between 0 and the length of the string."

/-- Second error message of `strTools::delSubStr` (strtools.hh line 180). -/
def delMsg2 : String :=
  "Length `j` must be between 0 and the length of the string."

/-- Third error message of `strTools::delSubStr` (strtools.hh line 184). -/
def delMsg3 : String :=
  "Position i+j-1 must be between 0 and the length of the string."

/-- Embedding of `strTools::delSubStr` (strtools.hh lines 172-192).  Each guard hands
its stated condition to `checkLogicErrors`, which throws when the
condition is TRUE.  On `uint64_t`, `0 <= i` and `0 <= j` and
`0 <= i + j - 1` are always true; `i + j - 1` wraps to `2^64 - 1` when
`i + j = 0`, making the comparison with `strlen(s)` false — the
conjunct `i + j ≠ 0` encodes exactly that wrap-around case. -/
def delSubStr (s : List Char) (i j : Nat) : Except String (List Char) := do
  _ ← checkLogicErrors (decide (0 ≤ i ∧ i < s.length)) delMsg1
  _ ← checkLogicErrors (decide (0 ≤ j ∧ j < s.length)) delMsg2
  _ ← checkLogicErrors (decide (i + j ≠ 0 ∧ i + j - 1 < s.length)) delMsg3
  let p1 ← subStr s 0 (i - 1)
  let p2 ← subStr s (i + j - 1) (s.length - (i + j - 1))
  pure (concatStr p1 p2)

/-- The inner loop of `strTools::findSubStr` (strtools.hh lines 236-241)
and the bytewise comparison performed by `strstr`: does `pat` occur at
the head of `hay`, comparing byte for byte and stopping at the first
mismatch (or when the haystack runs out)? -/
def matchAt (hay pat : List Char) : Bool :=
  match pat, hay with
  | [], _ => true
  | _ :: _, [] => false
  | p :: ps, h :: hs => if h ≠ p then false else matchAt hs ps

/-- Left-to-right window scan: try offsets `i, i+1, ...` for `cnt`
iterations, returning the first offset where `pat` matches, or `none`.
This is the outer loop of `strTools::findSubStr` (strtools.hh
lines 234-246) and likewise the scan performed by the C library's
`strstr`. -/
def scanFrom (hay pat : List Char) : Nat → Nat → Option Nat
  | _, 0 => none
  | i, cnt + 1 =>
    if matchAt (hay.drop i) pat then some i
    else scanFrom hay pat (i + 1) cnt

/-- The not-found sentinel `INT64_MAX` returned by
`strTools::findSubStr` (strtools.hh lines 225, 249). -/
def INT64MAX : Int := 9223372036854775807

/-- Embedding of `strTools::findSubStr` (strtools.hh lines 212-250): lowercases both
strings, returns `INT64_MAX` when `s` is empty or the needle is longer
than `s`, returns `0` for an empty needle, and otherwise scans offsets
`0 .. lenS - lenFind` (that is `lenS - lenFind + 1` iterations of the
loop at line 234), returning the first matching offset or `INT64_MAX`. -/
def findSubStr (s find : List Char) : Int :=
  if s.length = 0 ∨ find.length > s.length then INT64MAX
  else if find.length = 0 then 0
  else
    match scanFrom (toLower s) (toLower find) 0 (s.length - find.length + 1) with
    | some i => (i : Int)
    | none => INT64MAX

/-- The C library's `strstr`, as called by `strTools::replaceStr`
(strtools.hh line 278): the lowest offset at which `sub` occurs in `s`
case-sensitively (an empty `sub` is found at offset 0), or `none`.
Every offset `0 .. s.length` is a candidate, hence `s.length + 1`
scan iterations. -/
def strstr (s sub : List Char) : Option Nat := scanFrom s sub 0 (s.length + 1)

/-- The `getSubStr` lambda inside `strTools::replaceStr` (strtools.hh
lines 276-281): the offset of the first occurrence when `strstr` finds
one, and `0` when it returns `NULL`. -/
def getSubStrPos (s sub : List Char) : Int :=
  match strstr s sub with
  | some p => (p : Int)
  | none => 0

/-- Embedding of `strTools::replaceStr` (strtools.hh lines 273-315): takes the
position from `getSubStr` (the dead `pos > INT64_MAX` "fix" at
lines 287-289 can never fire), then builds
`s[0..pos) ++ sub2 ++ s[pos + strlen(sub1) ..)` with
`strncpy`/`strcat`.  (When `sub1` is absent and longer than `s`, the C
code reads past `s`'s buffer — undefined behaviour; the model's
truncating `drop` covers the defined cases, where
`pos + strlen(sub1) <= strlen(s)`.) -/
def replaceStr (s sub1 sub2 : List Char) : List Char :=
  (s.take (getSubStrPos s sub1).toNat) ++ sub2 ++
    (s.drop ((getSubStrPos s sub1).toNat + sub1.length))

/-! Helper lemmas about the embedded operations. -/

theorem exceptBind_ok {α β : Type} (a : α) (f : α → Except String β) :
    (Except.ok a >>= f) = f a := rfl

theorem exceptBind_error {α β : Type} (e : String) (f : α → Except String β) :
    ((Except.error e : Except String α) >>= f) = Except.error e := rfl

theorem checkLogicErrors_pass {p : Prop} [Decidable p] (msg : String) (h : ¬ p) :
    checkLogicErrors (decide p) msg = Except.ok () := by
  simp [checkLogicErrors, h]

theorem checkLogicErrors_raise {p : Prop} [Decidable p] (msg : String) (h : p) :
    checkLogicErrors (decide p) msg = Except.error msg := by
  simp [checkLogicErrors, h]

theorem subStr_ok (s : List Char) (i j : Nat) (h : ¬ (i ≥ s.length ∨ i + j > s.length)) :
    subStr s i j = Except.ok ((s.drop i).take j) := by
  rw [subStr, checkLogicErrors_pass _ h, exceptBind_ok]; rfl

theorem subStr_raise (s : List Char) (i j : Nat) (h : i ≥ s.length ∨ i + j > s.length) :
    subStr s i j = Except.error subStrMsg := by
  rw [subStr, checkLogicErrors_raise _ h, exceptBind_error]

theorem matchAt_nil_pat (hay : List Char) : matchAt hay [] = true := by
  cases hay <;> rfl

theorem matchAt_le_length :
    ∀ {pat hay : List Char}, matchAt hay pat = true → pat.length ≤ hay.length := by
  intro pat
  induction pat with
  | nil => intro hay _; simp
  | cons p ps ih =>
    intro hay h
    cases hay with
    | nil => simp [matchAt] at h
    | cons a hs =>
      rw [matchAt] at h
      by_cases hap : a ≠ p
      · simp [hap] at h
      · simp only [hap, if_false] at h
        simpa using Nat.succ_le_succ (ih h)

theorem toLower_length (s : List Char) : (toLower s).length = s.length := by
  simp [toLower]

theorem scanFrom_eq_some (hay pat : List Char) (p : Nat) :
    ∀ cnt i, i ≤ p → p < i + cnt →
      matchAt (hay.drop p) pat = true →
      (∀ q, i ≤ q → q < p → matchAt (hay.drop q) pat = false) →
      scanFrom hay pat i cnt = some p := by
  intro cnt
  induction cnt with
  | zero => intro i h1 h2 _ _; omega
  | succ c ih =>
    intro i h1 h2 hp hmin
    rw [scanFrom]
    rcases Nat.eq_or_lt_of_le h1 with heq | hlt
    · subst heq; simp [hp]
    · have hfalse := hmin i (le_refl i) hlt
      simp only [hfalse, Bool.false_eq_true, if_false]
      exact ih (i + 1) hlt (by omega) hp (fun q hq1 hq2 => hmin q (by omega) hq2)

theorem scanFrom_some_spec (hay pat : List Char) :
    ∀ cnt i p, scanFrom hay pat i cnt = some p →
      i ≤ p ∧ p < i + cnt ∧ matchAt (hay.drop p) pat = true := by
  intro cnt
  induction cnt with
  | zero => intro i p h; simp [scanFrom] at h
  | succ c ih =>
    intro i p h
    rw [scanFrom] at h
    by_cases hm : matchAt (hay.drop i) pat = true
    · simp only [hm, if_true] at h
      cases h
      exact ⟨le_refl _, by omega, hm⟩
    · simp only [hm, if_false] at h
      obtain ⟨h1, h2, h3⟩ := ih (i + 1) p h
      exact ⟨by omega, by omega, h3⟩

theorem strstr_eq_some (s n : List Char) (p : Nat)
    (hp : matchAt (s.drop p) n = true)
    (hmin : ∀ q, q < p → matchAt (s.drop q) n = false) :
    strstr s n = some p := by
  have hple : p ≤ s.length := by
    by_contra hgt
    push_neg at hgt
    have hdrop : s.drop p = [] := List.drop_eq_nil_of_le (by omega)
    rw [hdrop] at hp
    cases n with
    | nil =>
      have h0 := hmin 0 (by omega)
      rw [matchAt_nil_pat] at h0
      exact absurd h0 (by simp)
    | cons a as => simp [matchAt] at hp
  exact scanFrom_eq_some s n p (s.length + 1) 0 (Nat.zero_le _) (by omega)
    hp (fun q _ hq => hmin q hq)

/-! Claim theorems. -/

/-- C1 (counterexample): the claim says `substring(s, length(s), 0)` succeeds
and returns empty, but `subStr` rejects `i = length(s)`: at `s = "a"`,
`subStr s (length s) 0` raises the range error. -/
theorem subStr_at_full_length_raises :
    subStr ("a".toList) (("a".toList).length) 0 = Except.error subStrMsg := by
  rfl

/-- C1 (amended): a zero-length window succeeds (returning the empty string)
exactly when `i < length(s)`; for `i = length(s)` — and a fortiori for
`i = length(s) + 1` — `subStr` fails with the range error, because its
guard rejects `i ≥ length(s)` outright. -/
theorem subStr_zero_window (s : List Char) (i : Nat) :
    subStr s i 0 = if i < s.length then Except.ok [] else Except.error subStrMsg := by
  by_cases h : i < s.length
  · rw [if_pos h, subStr_ok s i 0 (by omega)]
    simp
  · rw [if_neg h, subStr_raise s i 0 (by omega)]

/-- C2 (code bug): `insertStr` hands the tautology
`1 <= i || i <= strlen(s1) + 1` to `checkLogicErrors`, which throws when
its condition is TRUE, so the documented example
`insertStr("Hello, World!", "Beautiful ", 8)` raises instead of
returning `"Hello, Beautiful World!"`. -/
theorem insertStr_doc_example_raises :
    insertStr ("Hello, World!".toList) ("Beautiful ".toList) 8 =
      Except.error insertMsg := by
  rfl

/-- C3 (code bug): `delSubStr`'s first guard hands `0 <= i && i < strlen(s)`
to `checkLogicErrors`, which throws when its condition is TRUE, so the
documented example `delSubStr("Hello, World!", 7, 6)` raises (7 < 13)
instead of returning `"Hello, !"`. -/
theorem delSubStr_doc_example_raises :
    delSubStr ("Hello, World!".toList) 7 6 = Except.error delMsg1 := by
  rfl

/-- C4 (counterexample): when the needle does not occur, `replaceStr` does
not return the string unchanged: `replaceStr("abc", "xyz", "q")` returns
`"q"` (the `getSubStr` lambda reports offset 0 when `strstr` returns
`NULL`, so the replacement is spliced in at the front). -/
theorem replaceStr_absent_needle_counterexample :
    replaceStr ("abc".toList) ("xyz".toList) ("q".toList) = ("q".toList) ∧
    replaceStr ("abc".toList) ("xyz".toList) ("q".toList) ≠ ("abc".toList) := by
  constructor
  · rfl
  · decide

/-- C4 (amended): when the needle does occur, `replaceStr` replaces exactly
the first case-sensitive occurrence — if `p` is the lowest offset where
`n` matches byte-for-byte, the result is
`s[0..p) ++ r ++ s[p + length n ..)` — and in particular
`replaceStr("Hello, World!", "World", "Universe") = "Hello, Universe!"`.
(When the needle is absent the result is not `s` unchanged; see the
counterexample.) -/
theorem replaceStr_first_occurrence (s n r : List Char) (p : Nat)
    (hp : matchAt (s.drop p) n = true)
    (hmin : ∀ q, q < p → matchAt (s.drop q) n = false) :
    replaceStr s n r = s.take p ++ r ++ s.drop (p + n.length) ∧
    replaceStr ("Hello, World!".toList) ("World".toList) ("Universe".toList) =
      ("Hello, Universe!".toList) := by
  refine ⟨?_, by rfl⟩
  have hs : strstr s n = some p := strstr_eq_some s n p hp hmin
  simp [replaceStr, getSubStrPos, hs]

/-- C4 (witness): the amended theorem applied at
`s = "Hello, World!"`, `n = "World"`, `r = "Universe"`, `p = 7`. -/
theorem replaceStr_first_occurrence_witness :
    replaceStr ("Hello, World!".toList) ("World".toList) ("Universe".toList) =
      ("Hello, World!".toList).take 7 ++ ("Universe".toList) ++
        ("Hello, World!".toList).drop (7 + ("World".toList).length) :=
  (replaceStr_first_occurrence ("Hello, World!".toList) ("World".toList)
    ("Universe".toList) 7 (by decide) (by decide)).1

/-- C5 (counterexample): the claim says `find(s, "")` returns 0 for every
`s` including the empty string, but `findSubStr("", "")` hits the
`lenS == 0` check first and returns the `INT64_MAX` not-found sentinel. -/
theorem findSubStr_empty_empty_counterexample :
    findSubStr ([] : List Char) [] ≠ 0 ∧
    findSubStr ([] : List Char) [] = INT64MAX := by
  constructor
  · decide
  · rfl

/-- C5 (amended): `findSubStr(s, "")` returns 0 for every NON-empty `s`;
`findSubStr("", needle)` returns the `INT64_MAX` not-found sentinel for
every needle — including the empty needle — and whenever the needle is
longer than `s` the sentinel is returned as well. -/
theorem findSubStr_empty_needle_boundary (s n : List Char) (hs : s ≠ []) :
    findSubStr s [] = 0 ∧
    findSubStr [] n = INT64MAX ∧
    findSubStr [] [] = INT64MAX ∧
    (s.length < n.length → findSubStr s n = INT64MAX) := by
  have hs0 : s.length ≠ 0 := fun h => hs (List.length_eq_zero.mp h)
  refine ⟨?_, ?_, by rfl, ?_⟩
  · have hc1 : ¬ (s.length = 0 ∨ ([] : List Char).length > s.length) := by
      simp [hs0]
    simp only [findSubStr, if_neg hc1]
    simp
  · simp [findSubStr]
  · intro h
    simp only [findSubStr, if_pos (Or.inr h)]

/-- C5 (witness): the amended theorem applied at `s = "a"`, `n = "xy"`. -/
theorem findSubStr_empty_needle_boundary_witness :
    findSubStr ("a".toList) [] = 0 ∧
    findSubStr [] ("xy".toList) = INT64MAX ∧
    findSubStr [] [] = INT64MAX ∧
    (("a".toList).length < ("xy".toList).length →
      findSubStr ("a".toList) ("xy".toList) = INT64MAX) :=
  findSubStr_empty_needle_boundary ("a".toList) ("xy".toList) (by decide)

/-- C6: for a non-empty needle occurring case-insensitively in `s`,
`findSubStr` returns the lowest offset at which the ASCII-folded needle
matches the ASCII-folded window of `s` byte-for-byte (first match wins);
in particular `findSubStr("Hello World", "WORLD") = 6`. -/
theorem findSubStr_case_insensitive_first (s n : List Char) (p : Nat)
    (hn : n ≠ [])
    (hp : matchAt ((toLower s).drop p) (toLower n) = true)
    (hmin : ∀ q, q < p → matchAt ((toLower s).drop q) (toLower n) = false) :
    findSubStr s n = (p : Int) ∧
    findSubStr ("Hello World".toList) ("WORLD".toList) = 6 := by
  refine ⟨?_, by rfl⟩
  have hlen1 : (toLower n).length ≤ ((toLower s).drop p).length := matchAt_le_length hp
  have hlen2 : ((toLower s).drop p).length = s.length - p := by
    simp [toLower_length]
  have hlen3 : (toLower n).length = n.length := toLower_length n
  have hnlen : 1 ≤ n.length := by
    cases n with
    | nil => exact absurd rfl hn
    | cons a as => simp
  have harith : n.length ≤ s.length - p := by
    rw [hlen2, hlen3] at hlen1
    exact hlen1
  have hple : p ≤ s.length := by
    by_contra hgt
    push_neg at hgt
    have hdrop : (toLower s).drop p = [] := by
      apply List.drop_eq_nil_of_le
      simpa [toLower_length] using Nat.le_of_lt hgt
    rw [hdrop] at hlen1
    simp at hlen1
    omega
  have hbound : p + n.length ≤ s.length := by omega
  have hc1 : ¬ (s.length = 0 ∨ n.length > s.length) := by omega
  have hc2 : ¬ (n.length = 0) := by omega
  have hscan : scanFrom (toLower s) (toLower n) 0 (s.length - n.length + 1) = some p :=
    scanFrom_eq_some _ _ p _ 0 (Nat.zero_le _) (by omega) hp
      (fun q _ hq => hmin q hq)
  simp only [findSubStr, if_neg hc1, if_neg hc2, hscan]

/-- C6 (witness): the theorem applied at `s = "Hello World"`,
`n = "WORLD"`, `p = 6`. -/
theorem findSubStr_case_insensitive_first_witness :
    findSubStr ("Hello World".toList) ("WORLD".toList) = ((6 : Nat) : Int) :=
  (findSubStr_case_insensitive_first ("Hello World".toList) ("WORLD".toList) 6
    (by decide) (by decide) (by decide)).1

/-- C7 (code bug): the claim says `insertStr` raises exactly when `i` is
outside `[1, length(s1) + 1]`, but the guard condition
`1 <= i || i <= strlen(s1) + 1` is a tautology over unsigned `i` and
`checkLogicErrors` throws when its condition is TRUE, so `insertStr`
raises on EVERY input, in-range `i` included. -/
theorem insertStr_always_raises (s1 s2 : List Char) (i : Nat) :
    insertStr s1 s2 i = Except.error insertMsg := by
  have h : 1 ≤ i ∨ i ≤ s1.length + 1 := by omega
  rw [insertStr, checkLogicErrors_raise _ h, exceptBind_error]

/-- C8 (counterexample): the claim says both halves of the round-trip
succeed for every `0 ≤ i ≤ length(s)`, but at `s = ""`, `i = 0` the very
first call `subStr("", 0, 0)` raises (its guard rejects
`i ≥ length(s)`). -/
theorem subStr_empty_split_counterexample :
    subStr ([] : List Char) 0 0 = Except.error subStrMsg := by
  rfl

/-- C8 (amended): for `0 ≤ i < length(s)` both `subStr(s, 0, i)` and
`subStr(s, i, length(s) - i)` succeed and their concatenation
byte-equals `s`; at `i = length(s)` the second call fails with the range
error because the guard rejects `i ≥ length(s)`. -/
theorem subStr_concat_roundtrip (s : List Char) (i : Nat) (h : i < s.length) :
    subStr s 0 i = Except.ok (s.take i) ∧
    subStr s i (s.length - i) = Except.ok (s.drop i) ∧
    concatStr (s.take i) (s.drop i) = s := by
  refine ⟨?_, ?_, ?_⟩
  · rw [subStr_ok s 0 i (by omega)]
    simp
  · rw [subStr_ok s i (s.length - i) (by omega)]
    congr 1
    apply List.take_of_length_le
    simp
  · simp [concatStr]

/-- C8 (witness): the amended theorem applied at `s = "ab"`, `i = 1`. -/
theorem subStr_concat_roundtrip_witness :
    subStr ("ab".toList) 0 1 = Except.ok (("ab".toList).take 1) ∧
    subStr ("ab".toList) 1 (("ab".toList).length - 1) =
      Except.ok (("ab".toList).drop 1) ∧
    concatStr (("ab".toList).take 1) (("ab".toList).drop 1) = ("ab".toList) :=
  subStr_concat_roundtrip ("ab".toList) 1 (by decide)

/-- C9: concatenation with the empty string is the identity, both for the
bytes and for the length; `concatStr` is total (no failure mode). -/
theorem concatStr_empty_identity (s : List Char) :
    concatStr s [] = s ∧ (concatStr s []).length = s.length := by
  simp [concatStr]

/-- C10: `findSubStr` returns either the `INT64_MAX` not-found sentinel or
a genuine match offset in `[0, length(s) - length(needle)]` (an offset
where the folded needle matches); it never returns `-1` or any negative
value, so the `startPos == -1` check in the demo driver can never
observe the not-found case. -/
theorem findSubStr_sentinel_or_valid (s n : List Char) :
    findSubStr s n ≠ -1 ∧
    (findSubStr s n = INT64MAX ∨
      (0 ≤ findSubStr s n ∧
        findSubStr s n ≤ (s.length : Int) - (n.length : Int) ∧
        matchAt ((toLower s).drop (findSubStr s n).toNat) (toLower n) = true)) := by
  by_cases hc1 : s.length = 0 ∨ n.length > s.length
  · rw [findSubStr, if_pos hc1]
    exact ⟨by decide, Or.inl rfl⟩
  · have hc1' := hc1
    push_neg at hc1'
    by_cases hc2 : n.length = 0
    · have hn : n = [] := List.length_eq_zero.mp hc2
      rw [findSubStr, if_neg hc1, if_pos hc2]
      refine ⟨by decide, Or.inr ⟨le_refl 0, ?_, ?_⟩⟩
      · omega
      · subst hn
        simp [toLower, matchAt_nil_pat]
    · cases hscan : scanFrom (toLower s) (toLower n) 0 (s.length - n.length + 1) with
      | none =>
        rw [findSubStr, if_neg hc1, if_neg hc2, hscan]
        exact ⟨by decide, Or.inl rfl⟩
      | some p =>
        obtain ⟨-, hlt, hm⟩ := scanFrom_some_spec _ _ _ _ _ hscan
        have hval : findSubStr s n = (p : Int) := by
          rw [findSubStr, if_neg hc1, if_neg hc2, hscan]
        rw [hval]
        refine ⟨by omega, Or.inr ⟨by omega, by omega, ?_⟩⟩
        simpa using hm

end strTools
